import Mathlib

/-!
Verification of the symbolfetcher core (src/windows.rs) against its
natural-language specification.

Rust strings and byte slices are modelled as `List Nat` of byte values
(a Rust `String` is exactly its UTF-8 byte content).  External
collaborators (the `exe` PE parser, `reqwest`, `std::fs::read_dir`,
`Path::extension`) are modelled as oracle inputs, following the way the
spec treats them as opaque boundaries.
-/

set_option maxRecDepth 4000

namespace SymbolFetcher

/-! ### Byte-string helpers -/

/-- Byte values of a pure-ASCII Lean string literal (used to transcribe
the Rust string literals appearing in the source). -/
def asciiBytes (s : String) : List Nat := s.toList.map Char.toNat

/-- Rust `u8::to_ascii_lowercase`: map an ASCII uppercase letter to the
corresponding lowercase letter, leave every other byte unchanged. -/
def asciiToLower (c : Nat) : Nat := if 65 ≤ c ∧ c ≤ 90 then c + 32 else c

/-- ASCII uppercasing of one byte, the effect of Rust
`str::to_uppercase` on the ASCII output of `hex::encode`. -/
def asciiToUpper (c : Nat) : Nat := if 97 ≤ c ∧ c ≤ 122 then c - 32 else c

/-- One lowercase hexadecimal digit as produced by `hex::encode`:
0-9 encode as ASCII 48-57, 10-15 as ASCII 97-102. -/
def hexDigit (n : Nat) : Nat := if n < 10 then 48 + n else 87 + n

/-- `hex::encode`: each byte becomes two lowercase hex digits, high
nibble first. -/
def hexEncode (bs : List Nat) : List Nat :=
  bs.flatMap fun b => [hexDigit (b / 16), hexDigit (b % 16)]

/-- Rust `str::to_uppercase` restricted to the ASCII strings this
program applies it to. -/
def to_uppercase (s : List Nat) : List Nat := s.map asciiToUpper

/-- A byte value of an uppercase hexadecimal digit: ASCII 0-9 or A-F. -/
def isHexDigitUpper (c : Nat) : Bool :=
  (48 ≤ c && c ≤ 57) || (65 ≤ c && c ≤ 70)

/-! ### The GUID encoder (src/windows.rs, encode_guid) -/

/-- `encode_guid` from src/windows.rs: reorder the 16 GUID bytes as
wg3 wg2 wg1 wg0 wg5 wg4 wg7 wg6 wg8 ... wg15, hex-encode, uppercase.
The Rust `[u8; 16]` array is modelled as a function `Fin 16 → Nat`. -/
def encode_guid (wg : Fin 16 → Nat) : List Nat :=
  to_uppercase (hexEncode
    [wg 3, wg 2, wg 1, wg 0, wg 5, wg 4, wg 7, wg 6,
     wg 8, wg 9, wg 10, wg 11, wg 12, wg 13, wg 14, wg 15])

/-- The index permutation of the byte-reorder table in the spec
(section 4.3):
output position i holds input byte `reorderIdx i`. -/
def reorderIdx : Fin 16 → Fin 16 :=
  ![3, 2, 1, 0, 5, 4, 7, 6, 8, 9, 10, 11, 12, 13, 14, 15]

/-- The reordered byte sequence exactly as the spec lists it. -/
def reorderedBytes (wg : Fin 16 → Nat) : List Nat :=
  List.ofFn fun i => wg (reorderIdx i)

/-- The byte permutation as a map on GUIDs. -/
def guidReorder (wg : Fin 16 → Nat) : Fin 16 → Nat :=
  fun i => wg (reorderIdx i)

/-! ### Debug-name extraction (src/windows.rs, extract_debug_name) -/

/-- Rust `Iterator::position`: index of the first element satisfying the
predicate, `none` when there is none. -/
def position (p : Nat → Bool) : List Nat → Option Nat
  | [] => none
  | b :: rest => if p b then some 0 else (position p rest).map (· + 1)

/-- The UTF-8 validation performed by Rust `String::from_utf8`
(standard UTF-8: no overlong forms, no surrogates, at most U+10FFFF). -/
def utf8Valid : List Nat → Bool
  | [] => true
  | b :: rest =>
    if b ≤ 0x7F then utf8Valid rest
    else if 0xC2 ≤ b ∧ b ≤ 0xDF then
      match rest with
      | c1 :: tail =>
        if 0x80 ≤ c1 ∧ c1 ≤ 0xBF then utf8Valid tail else false
      | [] => false
    else if 0xE0 ≤ b ∧ b ≤ 0xEF then
      match rest with
      | c1 :: c2 :: tail =>
        if (if b = 0xE0 then 0xA0 else 0x80) ≤ c1
            ∧ c1 ≤ (if b = 0xED then 0x9F else 0xBF)
            ∧ 0x80 ≤ c2 ∧ c2 ≤ 0xBF then
          utf8Valid tail
        else false
      | _ => false
    else if 0xF0 ≤ b ∧ b ≤ 0xF4 then
      match rest with
      | c1 :: c2 :: c3 :: tail =>
        if (if b = 0xF0 then 0x90 else 0x80) ≤ c1
            ∧ c1 ≤ (if b = 0xF4 then 0x8F else 0xBF)
            ∧ 0x80 ≤ c2 ∧ c2 ≤ 0xBF ∧ 0x80 ≤ c3 ∧ c3 ≤ 0xBF then
          utf8Valid tail
        else false
      | _ => false
    else false

/-- Rust `String::from_utf8(bytes).ok()`: the same bytes as a string when
they are valid UTF-8, `none` otherwise (a Rust String is modelled by its
UTF-8 byte content). -/
def from_utf8 (bytes : List Nat) : Option (List Nat) :=
  if utf8Valid bytes then some bytes else none

/-- `extract_debug_name` from src/windows.rs: find the first zero byte,
decode the bytes before it as UTF-8. -/
def extract_debug_name (name : List Nat) : Option (List Nat) :=
  match position (fun b => b == 0) name with
  | none => none
  | some name_end => from_utf8 (name.take name_end)

/-- A concrete 255-byte name field: the bytes of "ntdll.pdb", a zero
terminator, and zero padding. -/
def sampleNameField : List Nat :=
  asciiBytes "ntdll.pdb" ++ 0 :: List.replicate 245 0

/-! ### The data model (src/windows.rs, PdbMeta and DDRaw) -/

/-- `PdbMeta` from src/windows.rs: name and guid are Rust Strings
(modelled by their bytes), age a u32. -/
structure PdbMeta where
  name : List Nat
  guid : List Nat
  age : Nat
deriving DecidableEq

/-- `DDRaw` from src/windows.rs: the fixed-layout debug record.  The
`[u8; 4]` magic and `[u8; 16]` guid arrays are functions from indices,
the 255-byte name field a byte list. -/
structure DDRaw where
  magic : Fin 4 → Nat
  guid : Fin 16 → Nat
  age : Nat
  name : List Nat

/-- `MIN_PDB_NAME_LEN` from src/windows.rs. -/
def MIN_PDB_NAME_LEN : Nat := 4

/-- `Windows::get_hash_and_pdb_name` from src/windows.rs.  The three
leading fallible steps (`VecPE::from_file`, `DebugDirectory::parse`,
`image.get_ref::<DDRaw>`) belong to the external `exe` crate, which the
spec treats as an opaque boundary whose failures collapse to a skip;
their combined outcome is the `parsed` argument.  The rest is the
code of the repository itself: extract the name, reject names shorter than
`MIN_PDB_NAME_LEN`, encode the guid, copy the age. -/
def get_hash_and_pdb_name (parsed : Option DDRaw) : Option PdbMeta :=
  match parsed with
  | none => none
  | some dd =>
    match extract_debug_name dd.name with
    | none => none
    | some debug_name =>
      if debug_name.length < MIN_PDB_NAME_LEN then none
      else some ⟨debug_name, encode_guid dd.guid, dd.age⟩

/-- `Windows::get_hash_and_pdb_names` from src/windows.rs: loop over the
files, skip the files whose extraction yields none, push the rest in
order. -/
def get_hash_and_pdb_names : List (Option DDRaw) → List PdbMeta
  | [] => []
  | f :: rest =>
    match get_hash_and_pdb_name f with
    | none => get_hash_and_pdb_names rest
    | some hnp => hnp :: get_hash_and_pdb_names rest

/-! ### The extension filter (src/windows.rs, get_files_in_system32) -/

/-- Placeholder for `std::io::Error` values, which the code only passes
through. -/
def IOError : Type := Nat

/-- One directory entry as the code observes it: its path, and the
outcome of `path.extension().and_then(to_str)` (the external
`std::path` boundary): `none` when the path has no extension or the
extension is not UTF-8. -/
structure DirEntry where
  path : List Nat
  ext : Option (List Nat)

/-- Rust `str::eq_ignore_ascii_case`: equal length and pairwise equal
after ASCII lowercasing. -/
def eq_ignore_ascii_case (a b : List Nat) : Bool :=
  a.length == b.length &&
    (a.zip b).all fun pair => asciiToLower pair.1 == asciiToLower pair.2

/-- The inclusion decision of `get_files_in_system32`:
`path.extension().and_then(to_str).map(allow-list check).unwrap_or(false)`. -/
def extensionAllowed (ext : Option (List Nat)) : Bool :=
  (ext.map fun e =>
      eq_ignore_ascii_case e (asciiBytes "dll")
      || eq_ignore_ascii_case e (asciiBytes "exe")
      || eq_ignore_ascii_case e (asciiBytes "sys")
      || eq_ignore_ascii_case e (asciiBytes "drv")
      || eq_ignore_ascii_case e (asciiBytes "cpl")
      || eq_ignore_ascii_case e (asciiBytes "mui")
      || eq_ignore_ascii_case e (asciiBytes "ocx")).getD false

/-- The allow-list of native-binary extensions, lowercased, as the spec
lists it. -/
def allowedExtensions : List (List Nat) :=
  [asciiBytes "dll", asciiBytes "exe", asciiBytes "sys", asciiBytes "drv",
   asciiBytes "cpl", asciiBytes "mui", asciiBytes "ocx"]

/-- The per-entry closure of `get_files_in_system32`: propagate the
error of the entry, otherwise keep the path when its extension is
allowed. -/
def processEntry (r : Except IOError DirEntry) :
    Except IOError (Option (List Nat)) :=
  match r with
  | .error e => .error e
  | .ok entry =>
    if extensionAllowed entry.ext then .ok (some entry.path) else .ok none

/-- Rust `collect::<Result<Vec<_>, _>>()`: the list of values, or the
first error in order. -/
def collectResults :
    List (Except IOError (Option (List Nat))) →
      Except IOError (List (Option (List Nat)))
  | [] => .ok []
  | r :: rest =>
    match r with
    | .error e => .error e
    | .ok v =>
      match collectResults rest with
      | .error e => .error e
      | .ok vs => .ok (v :: vs)

/-- `Windows::get_files_in_system32` from src/windows.rs.  The
`std::fs::read_dir` boundary is the `listing` argument: either a
directory-read error, or the list of per-entry results in directory
order.  The code propagates the read_dir error, maps the per-entry
closure over the entries, collects (first error wins), and flattens the
kept paths. -/
def get_files_in_system32
    (listing : Except IOError (List (Except IOError DirEntry))) :
    Except IOError (List (List Nat)) :=
  match listing with
  | .error e => .error e
  | .ok entries =>
    match collectResults (entries.map processEntry) with
    | .error e => .error e
    | .ok opts => .ok (opts.filterMap id)

/-- The first error among the per-entry results, in directory order. -/
def firstError : List (Except IOError DirEntry) → Option IOError
  | [] => none
  | .error e :: _ => some e
  | .ok _ :: rest => firstError rest

/-- `Windows::fetch_system32_pdbs` from src/windows.rs: list the files
(propagating its failure), then extract identifiers.  `parse` is the
external PE-parsing boundary, giving the debug record of each path when one
is readable. -/
def fetch_system32_pdbs
    (listing : Except IOError (List (Except IOError DirEntry)))
    (parse : List Nat → Option DDRaw) :
    Except IOError (List PdbMeta) :=
  match get_files_in_system32 listing with
  | .error e => .error e
  | .ok files => .ok (get_hash_and_pdb_names (files.map parse))

/-! ### The download client (src/windows.rs, PdbMeta::download) -/

/-- An HTTP response as the code observes it: a status code (never
inspected by the code) and the outcome of `response.bytes()` (`none`
when reading the body fails). -/
structure Response where
  status : Nat
  body : Option (List Nat)

/-- The outcome of one `reqwest::blocking::get` call: a response, or a
transport-level failure. -/
inductive FetchOutcome where
  | ok : Response → FetchOutcome
  | fail : FetchOutcome

/-- What one run of `PdbMeta::download` did: the returned value, how
many attempts were performed, and the sleeps (in seconds, in order). -/
structure DownloadResult where
  result : Option (List Nat)
  attemptsMade : Nat
  sleeps : List Nat

/-- The retry loop of `PdbMeta::download`.  `fetch n` is the outcome of
the HTTP GET on attempt n (0-based); `fuel` is `max_attempts - attempts`
of the Rust while loop, `delay` the current backoff in seconds.  On a
response it returns `response.bytes().unwrap_or_default()`; on a
transport failure it sleeps `delay`, doubles it, and retries. -/
def downloadLoop (fetch : Nat → FetchOutcome) :
    Nat → Nat → Nat → DownloadResult
  | 0, _, _ => ⟨none, 0, []⟩
  | fuel + 1, attempt, delay =>
    match fetch attempt with
    | .ok r => ⟨some (r.body.getD []), 1, []⟩
    | .fail =>
      let rest := downloadLoop fetch fuel (attempt + 1) (delay * 2)
      ⟨rest.result, rest.attemptsMade + 1, delay :: rest.sleeps⟩

/-- `max_attempts` from `PdbMeta::download`. -/
def max_attempts : Nat := 5

/-- Decimal rendering of a u32, as the Rust Display trait writes it into the
format string. -/
def u32Decimal (n : Nat) : List Nat := asciiBytes (Nat.repr n)

/-- The URL built by `PdbMeta::download` via
format "https://msdl.microsoft.com/download/symbols/AA/BBCC/AA" with
AA the name, BB the guid and CC the age: the literal pieces of the
format string interleaved with the four arguments. -/
def downloadUrl (p : PdbMeta) : List Nat :=
  asciiBytes "https://msdl.microsoft.com/download/symbols/"
    ++ p.name ++ asciiBytes "/" ++ p.guid ++ u32Decimal p.age
    ++ asciiBytes "/" ++ p.name

/-- `PdbMeta::download` from src/windows.rs: build the URL, then run the
retry loop with attempts = 0 and delay = 1s.  `http url n` is the
outcome of `reqwest::blocking::get(url)` on attempt n (the network
boundary). -/
def PdbMeta.download (p : PdbMeta)
    (http : List Nat → Nat → FetchOutcome) : DownloadResult :=
  downloadLoop (http (downloadUrl p)) max_attempts 0 1

end SymbolFetcher

namespace SymbolFetcher

/-! ### Helper lemmas -/

lemma hexUpperDigit_inj {m n : Nat} (hm : m < 16) (hn : n < 16)
    (h : asciiToUpper (hexDigit m) = asciiToUpper (hexDigit n)) : m = n := by
  unfold asciiToUpper hexDigit at h
  split_ifs at h <;> omega

lemma byte_of_hex_eq {a b : Nat} (ha : a < 256) (hb : b < 256)
    (h1 : asciiToUpper (hexDigit (a / 16)) = asciiToUpper (hexDigit (b / 16)))
    (h2 : asciiToUpper (hexDigit (a % 16)) = asciiToUpper (hexDigit (b % 16))) :
    a = b := by
  have e1 : a / 16 = b / 16 := hexUpperDigit_inj (by omega) (by omega) h1
  have e2 : a % 16 = b % 16 := hexUpperDigit_inj (by omega) (by omega) h2
  omega

lemma encode_guid_inj (wg wg' : Fin 16 → Nat)
    (h : ∀ i, wg i < 256) (h' : ∀ i, wg' i < 256)
    (he : encode_guid wg = encode_guid wg') : wg = wg' := by
  simp only [encode_guid, to_uppercase, hexEncode, List.flatMap_cons,
    List.flatMap_nil, List.map_append, List.map_cons, List.map_nil,
    List.append_nil, List.cons_append, List.nil_append, List.cons.injEq,
    and_true] at he
  obtain ⟨e3h, e3l, e2h, e2l, e1h, e1l, e0h, e0l, e5h, e5l, e4h, e4l,
    e7h, e7l, e6h, e6l, e8h, e8l, e9h, e9l, e10h, e10l, e11h, e11l,
    e12h, e12l, e13h, e13l, e14h, e14l, e15h, e15l⟩ := he
  funext i
  fin_cases i
  · exact byte_of_hex_eq (h _) (h' _) e0h e0l
  · exact byte_of_hex_eq (h _) (h' _) e1h e1l
  · exact byte_of_hex_eq (h _) (h' _) e2h e2l
  · exact byte_of_hex_eq (h _) (h' _) e3h e3l
  · exact byte_of_hex_eq (h _) (h' _) e4h e4l
  · exact byte_of_hex_eq (h _) (h' _) e5h e5l
  · exact byte_of_hex_eq (h _) (h' _) e6h e6l
  · exact byte_of_hex_eq (h _) (h' _) e7h e7l
  · exact byte_of_hex_eq (h _) (h' _) e8h e8l
  · exact byte_of_hex_eq (h _) (h' _) e9h e9l
  · exact byte_of_hex_eq (h _) (h' _) e10h e10l
  · exact byte_of_hex_eq (h _) (h' _) e11h e11l
  · exact byte_of_hex_eq (h _) (h' _) e12h e12l
  · exact byte_of_hex_eq (h _) (h' _) e13h e13l
  · exact byte_of_hex_eq (h _) (h' _) e14h e14l
  · exact byte_of_hex_eq (h _) (h' _) e15h e15l

lemma position_lt_length {p : Nat → Bool} {l : List Nat} {k : Nat}
    (h : position p l = some k) : k < l.length := by
  induction l generalizing k with
  | nil => simp [position] at h
  | cons b rest ih =>
    by_cases hb : p b
    · rw [position, if_pos hb] at h
      injection h with h0
      subst h0
      exact Nat.succ_pos _
    · simp [position, hb] at h
      obtain ⟨k', hk', rfl⟩ := h
      have := ih hk'
      simp
      omega

lemma isHex_asciiToUpper_hexDigit {n : Nat} (h : n < 16) :
    isHexDigitUpper (asciiToUpper (hexDigit n)) = true := by
  interval_cases n <;> rfl

lemma all_hex_to_uppercase_hexEncode (bs : List Nat)
    (h : ∀ b ∈ bs, b < 256) :
    (to_uppercase (hexEncode bs)).all isHexDigitUpper = true := by
  induction bs with
  | nil => rfl
  | cons b rest ih =>
    have hb : b < 256 := h b (List.mem_cons_self b rest)
    have hrest : ∀ x ∈ rest, x < 256 :=
      fun x hx => h x (List.mem_cons_of_mem b hx)
    have h1 := isHex_asciiToUpper_hexDigit (show b / 16 < 16 by omega)
    have h2 := isHex_asciiToUpper_hexDigit
      (show b % 16 < 16 from Nat.mod_lt _ (by omega))
    have h3 := ih hrest
    simp only [hexEncode, List.flatMap_cons, to_uppercase, List.map_append,
      List.map_cons, List.map_nil, List.all_append, List.all_cons,
      List.all_nil, Bool.and_true, Bool.and_eq_true] at h3 ⊢
    exact ⟨⟨h1, h2⟩, h3⟩

lemma encode_guid_all_hex (wg : Fin 16 → Nat) (h : ∀ i, wg i < 256) :
    (encode_guid wg).all isHexDigitUpper = true := by
  apply all_hex_to_uppercase_hexEncode
  intro b hb
  simp only [List.mem_cons, List.not_mem_nil, or_false] at hb
  rcases hb with rfl | rfl | rfl | rfl | rfl | rfl | rfl | rfl | rfl | rfl
    | rfl | rfl | rfl | rfl | rfl | rfl <;> exact h _

lemma get_hash_and_pdb_names_eq_filterMap (files : List (Option DDRaw)) :
    get_hash_and_pdb_names files = files.filterMap get_hash_and_pdb_name := by
  induction files with
  | nil => rfl
  | cons f rest ih =>
    cases hf : get_hash_and_pdb_name f <;>
      simp [get_hash_and_pdb_names, hf, ih, List.filterMap_cons]

lemma eq_ignore_ascii_case_cons (x y : Nat) (xs ys : List Nat) :
    (eq_ignore_ascii_case (x :: xs) (y :: ys) = true) ↔
      (asciiToLower x = asciiToLower y ∧ eq_ignore_ascii_case xs ys = true) := by
  simp [eq_ignore_ascii_case, List.all_cons]
  tauto

lemma eq_ignore_ascii_case_iff (a b : List Nat) :
    eq_ignore_ascii_case a b = true ↔
      a.map asciiToLower = b.map asciiToLower := by
  induction a generalizing b with
  | nil => cases b <;> simp [eq_ignore_ascii_case]
  | cons x xs ih =>
    cases b with
    | nil => simp [eq_ignore_ascii_case]
    | cons y ys => simp [eq_ignore_ascii_case_cons, ih]

lemma collect_map_error (entries : List (Except IOError DirEntry))
    (e : IOError) (h : firstError entries = some e) :
    collectResults (entries.map processEntry) = .error e := by
  induction entries with
  | nil => simp [firstError] at h
  | cons r rest ih =>
    cases r with
    | error e' =>
      simp [firstError] at h
      subst h
      simp [processEntry, collectResults]
    | ok en =>
      simp only [firstError] at h
      have hrec := ih h
      cases hext : extensionAllowed en.ext <;>
        simp [List.map_cons, processEntry, hext, collectResults, hrec]

lemma collect_map_ok_entries (l : List DirEntry) :
    collectResults ((l.map Except.ok).map processEntry) =
      .ok (l.map fun en =>
        if extensionAllowed en.ext then some en.path else none) := by
  induction l with
  | nil => rfl
  | cons en rest ih =>
    have hpe : processEntry (Except.ok en) =
        .ok (if extensionAllowed en.ext then some en.path else none) := by
      by_cases hext : extensionAllowed en.ext <;> simp [processEntry, hext]
    simp only [List.map_cons, hpe, collectResults, ih]

lemma collect_map_ok (entries : List (Except IOError DirEntry))
    (h : firstError entries = none) :
    ∃ opts, collectResults (entries.map processEntry) = .ok opts := by
  induction entries with
  | nil => exact ⟨[], rfl⟩
  | cons r rest ih =>
    cases r with
    | error e' => simp [firstError] at h
    | ok en =>
      simp only [firstError] at h
      obtain ⟨opts, hopts⟩ := ih h
      have hpe : processEntry (Except.ok en) =
          .ok (if extensionAllowed en.ext then some en.path else none) := by
        by_cases hext : extensionAllowed en.ext <;> simp [processEntry, hext]
      refine ⟨(if extensionAllowed en.ext then some en.path else none)
        :: opts, ?_⟩
      simp only [List.map_cons, hpe, collectResults, hopts]

lemma get_files_ok_entries (entries : List DirEntry) :
    get_files_in_system32 (.ok (entries.map Except.ok)) =
      .ok ((entries.filter fun en => extensionAllowed en.ext).map
        DirEntry.path) := by
  simp only [get_files_in_system32, collect_map_ok_entries]
  congr 1
  induction entries with
  | nil => rfl
  | cons en rest ih =>
    cases hext : extensionAllowed en.ext <;>
      simp [List.filterMap_cons, List.filter_cons, hext, ih]

lemma downloadLoop_ok (fetch : Nat → FetchOutcome) (r : Response) :
    ∀ (k fuel attempt delay : Nat), k < fuel →
      (∀ n, n < k → fetch (attempt + n) = .fail) →
      fetch (attempt + k) = .ok r →
      (downloadLoop fetch fuel attempt delay).result = some (r.body.getD [])
      ∧ (downloadLoop fetch fuel attempt delay).attemptsMade = k + 1 := by
  intro k
  induction k with
  | zero =>
    intro fuel attempt delay hk hprev hok
    cases fuel with
    | zero => omega
    | succ fuel =>
      rw [Nat.add_zero] at hok
      simp [downloadLoop, hok]
  | succ k ih =>
    intro fuel attempt delay hk hprev hok
    cases fuel with
    | zero => omega
    | succ fuel =>
      have h0 : fetch attempt = .fail := by
        have := hprev 0 (Nat.succ_pos k)
        simpa using this
      have hrec := ih fuel (attempt + 1) (delay * 2) (by omega)
        (fun n hn => by
          have hp := hprev (n + 1) (by omega)
          have heq : attempt + (n + 1) = attempt + 1 + n := by omega
          rwa [heq] at hp)
        (by
          have heq : attempt + (k + 1) = attempt + 1 + k := by omega
          rwa [heq] at hok)
      simp [downloadLoop, h0, hrec.1, hrec.2]

/-! ### The claims -/

/-- C1: for every 16-byte input the GUID encoder outputs the uppercase hex
encoding of the byte sequence reordered exactly as the table of the spec lists
it (the sequence wg3 wg2 wg1 wg0 wg5 wg4 wg7 wg6 wg8 ... wg15), the output
has 32 characters, and the input bytes 01 02 ... 10 yield exactly the
string 0403020106050807090A0B0C0D0E0F10. -/
theorem C1_encode_guid_reorder (wg : Fin 16 → Nat) :
    encode_guid wg = to_uppercase (hexEncode (reorderedBytes wg))
    ∧ (encode_guid wg).length = 32
    ∧ encode_guid (fun i => i.val + 1) =
        asciiBytes "0403020106050807090A0B0C0D0E0F10" := by
  refine ⟨rfl, rfl, by decide⟩

/-- C10: the byte permutation applied by encode_guid is an involution
(applying the reorder twice gives back the original 16 bytes), and
consequently encode_guid is injective: two distinct byte-valued GUIDs
give distinct output strings. -/
theorem C10_reorder_involution_injective (wg wg' : Fin 16 → Nat)
    (h : ∀ i, wg i < 256) (h' : ∀ i, wg' i < 256) (hne : wg ≠ wg') :
    guidReorder (guidReorder wg) = wg ∧ encode_guid wg ≠ encode_guid wg' := by
  constructor
  · funext i
    fin_cases i <;> rfl
  · intro he
    exact hne (encode_guid_inj wg wg' h h' he)

/-- C3: for every 255-byte name field, when the first zero byte sits at
index k and the bytes before it are valid UTF-8, extraction returns that
k-byte string; when the bytes before the first zero byte are not valid
UTF-8, or no zero byte exists, it returns none. -/
theorem C3_extract_debug_name_cases (name : List Nat)
    (hlen : name.length = 255) :
    (∀ k, position (fun b => b == 0) name = some k →
      (utf8Valid (name.take k) = true →
        extract_debug_name name = some (name.take k)
        ∧ (name.take k).length = k)
      ∧ (utf8Valid (name.take k) = false → extract_debug_name name = none))
    ∧ (position (fun b => b == 0) name = none →
        extract_debug_name name = none) := by
  constructor
  · intro k hk
    have hlt : k < name.length := position_lt_length hk
    constructor
    · intro hvalid
      refine ⟨by simp [extract_debug_name, hk, from_utf8, hvalid], ?_⟩
      simp [List.length_take]
      omega
    · intro hinvalid
      simp [extract_debug_name, hk, from_utf8, hinvalid]
  · intro hnone
    simp [extract_debug_name, hnone]

/-- Witness for C3 at a concrete 255-byte field holding "ntdll.pdb". -/
theorem C3_witness :
    (∀ k, position (fun b => b == 0) sampleNameField = some k →
      (utf8Valid (sampleNameField.take k) = true →
        extract_debug_name sampleNameField = some (sampleNameField.take k)
        ∧ (sampleNameField.take k).length = k)
      ∧ (utf8Valid (sampleNameField.take k) = false →
          extract_debug_name sampleNameField = none))
    ∧ (position (fun b => b == 0) sampleNameField = none →
        extract_debug_name sampleNameField = none) :=
  C3_extract_debug_name_cases sampleNameField (by decide)

/-- C4: every PdbMeta that extraction returns satisfies the invariant:
its name has at least 4 bytes, its guid is encode_guid of the 16 raw
record bytes and consists of exactly 32 uppercase hexadecimal
characters; and every element of a fetch_system32_pdbs result is such a
returned value. -/
theorem C4_pdb_identifier_invariant (dd : DDRaw) (p : PdbMeta)
    (hbytes : ∀ i, dd.guid i < 256)
    (h : get_hash_and_pdb_name (some dd) = some p) :
    (4 ≤ p.name.length ∧ p.guid = encode_guid dd.guid
      ∧ p.guid.length = 32 ∧ p.guid.all isHexDigitUpper = true)
    ∧ (∀ listing parse pdbs q,
        fetch_system32_pdbs listing parse = Except.ok pdbs → q ∈ pdbs →
        ∃ o : Option DDRaw, get_hash_and_pdb_name o = some q) := by
  constructor
  · cases he : extract_debug_name dd.name with
    | none => simp [get_hash_and_pdb_name, he] at h
    | some debug_name =>
      by_cases hshort : debug_name.length < MIN_PDB_NAME_LEN
      · simp [get_hash_and_pdb_name, he, hshort] at h
      · simp [get_hash_and_pdb_name, he, hshort] at h
        have hl : 4 ≤ debug_name.length := by
          simpa [MIN_PDB_NAME_LEN] using Nat.le_of_not_lt hshort
        subst h
        exact ⟨hl, rfl, rfl, encode_guid_all_hex dd.guid hbytes⟩
  · intro listing parse pdbs q hfetch hq
    cases hfiles : get_files_in_system32 listing with
    | error e => simp [fetch_system32_pdbs, hfiles] at hfetch
    | ok files =>
      simp only [fetch_system32_pdbs, hfiles] at hfetch
      injection hfetch with hfetch
      subst hfetch
      rw [get_hash_and_pdb_names_eq_filterMap] at hq
      obtain ⟨o, _, ho⟩ := List.mem_filterMap.mp hq
      exact ⟨o, ho⟩

/-- A concrete debug record used to witness C4. -/
theorem C4_witness :
    ((4 : Nat) ≤ (asciiBytes "ntdll.pdb").length
      ∧ encode_guid (fun _ => 0) = encode_guid (fun _ => 0)
      ∧ (encode_guid (fun _ => 0)).length = 32
      ∧ (encode_guid (fun _ => 0)).all isHexDigitUpper = true)
    ∧ (∀ listing parse pdbs q,
        fetch_system32_pdbs listing parse = Except.ok pdbs → q ∈ pdbs →
        ∃ o : Option DDRaw, get_hash_and_pdb_name o = some q) :=
  C4_pdb_identifier_invariant
    ⟨fun _ => 0, fun _ => 0, 7, sampleNameField⟩
    ⟨asciiBytes "ntdll.pdb", encode_guid (fun _ => 0), 7⟩
    (fun _ => show (0 : Nat) < 256 by decide)
    (by decide)

/-- C9: extraction over a batch of candidate files never fails as a
whole: files whose extraction yields none are skipped and the batch
continues, and the result is exactly the successfully extracted
identifiers of the remaining files, in order. -/
theorem C9_batch_skip_and_continue (files : List (Option DDRaw)) :
    get_hash_and_pdb_names files = files.filterMap get_hash_and_pdb_name
    ∧ (∀ bad rest, get_hash_and_pdb_name bad = none →
        get_hash_and_pdb_names (bad :: rest) = get_hash_and_pdb_names rest)
    ∧ (∀ f rest q, get_hash_and_pdb_name f = some q →
        get_hash_and_pdb_names (f :: rest) =
          q :: get_hash_and_pdb_names rest) := by
  refine ⟨get_hash_and_pdb_names_eq_filterMap files, ?_, ?_⟩
  · intro bad rest hbad
    simp [get_hash_and_pdb_names, hbad]
  · intro f rest q hf
    simp [get_hash_and_pdb_names, hf]

/-- C7: the extension filter includes a directory entry if and only if
its extension, compared case-insensitively, is one of dll exe sys drv
cpl mui ocx; inclusion depends only on the extension (in a listing of
error-free entries a path is returned exactly when its entry carries an
allowed extension); the extensions DLL and dll are both included, and
an entry without an extension is excluded. -/
theorem C7_extension_filter (ext : List Nat) :
    (extensionAllowed (some ext) = true ↔
      ext.map asciiToLower ∈ allowedExtensions)
    ∧ extensionAllowed none = false
    ∧ (∀ entries : List DirEntry, ∀ out pth,
        get_files_in_system32 (.ok (entries.map Except.ok)) = .ok out →
        (pth ∈ out ↔ ∃ en ∈ entries, en.path = pth
          ∧ extensionAllowed en.ext = true))
    ∧ extensionAllowed (some (asciiBytes "DLL")) = true
    ∧ extensionAllowed (some (asciiBytes "dll")) = true
    ∧ extensionAllowed (some (asciiBytes "txt")) = false := by
  refine ⟨?_, rfl, ?_, by decide, by decide, by decide⟩
  · have h1 : (asciiBytes "dll").map asciiToLower = asciiBytes "dll" := by
      decide
    have h2 : (asciiBytes "exe").map asciiToLower = asciiBytes "exe" := by
      decide
    have h3 : (asciiBytes "sys").map asciiToLower = asciiBytes "sys" := by
      decide
    have h4 : (asciiBytes "drv").map asciiToLower = asciiBytes "drv" := by
      decide
    have h5 : (asciiBytes "cpl").map asciiToLower = asciiBytes "cpl" := by
      decide
    have h6 : (asciiBytes "mui").map asciiToLower = asciiBytes "mui" := by
      decide
    have h7 : (asciiBytes "ocx").map asciiToLower = asciiBytes "ocx" := by
      decide
    simp [extensionAllowed, Bool.or_eq_true, eq_ignore_ascii_case_iff,
      h1, h2, h3, h4, h5, h6, h7, allowedExtensions, or_assoc]
  · intro entries out pth hout
    rw [get_files_ok_entries] at hout
    injection hout with hout
    subst hout
    simp only [List.mem_map, List.mem_filter]
    constructor
    · rintro ⟨en, ⟨hen, hallow⟩, rfl⟩
      exact ⟨en, hen, rfl, hallow⟩
    · rintro ⟨en, hen, rfl, hallow⟩
      exact ⟨en, ⟨hen, hallow⟩, rfl⟩

/-- C8: a directory-read failure, or a failure of any individual entry
while listing, is returned to the caller instead of a partial list. -/
theorem C8_get_files_error_propagation
    (listing : Except IOError (List (Except IOError DirEntry))) :
    (∀ e, listing = .error e → get_files_in_system32 listing = .error e)
    ∧ (∀ entries e, listing = .ok entries → firstError entries = some e →
        get_files_in_system32 listing = .error e)
    ∧ (∀ entries, listing = .ok entries → firstError entries = none →
        ∃ paths, get_files_in_system32 listing = .ok paths) := by
  refine ⟨?_, ?_, ?_⟩
  · rintro e rfl
    rfl
  · rintro entries e rfl herr
    simp [get_files_in_system32, collect_map_error entries e herr]
  · rintro entries rfl hok
    obtain ⟨opts, hopts⟩ := collect_map_ok entries hok
    exact ⟨opts.filterMap id, by simp [get_files_in_system32, hopts]⟩

/-- C2: when every attempt fails at the transport level, download makes
exactly 5 attempts, the delays slept before attempts 2 to 5 are 1, 2, 4
and 8 seconds (the full sleep sequence of the run being 1, 2, 4, 8, 16),
and the run terminates with a failure result. -/
theorem C2_retry_schedule (p : PdbMeta)
    (http : List Nat → Nat → FetchOutcome)
    (hfail : ∀ n, http (downloadUrl p) n = .fail) :
    (p.download http).result = none
    ∧ (p.download http).attemptsMade = 5
    ∧ (p.download http).sleeps.take 4 = [1, 2, 4, 8]
    ∧ (p.download http).sleeps = [1, 2, 4, 8, 16] := by
  have hd : p.download http =
      downloadLoop (fun _ => FetchOutcome.fail) 5 0 1 := by
    show downloadLoop (http (downloadUrl p)) max_attempts 0 1 = _
    rw [funext hfail]
    rfl
  rw [hd]
  exact ⟨rfl, rfl, rfl, rfl⟩

/-- Witness for C2: a client that fails every attempt. -/
theorem C2_witness :
    ((⟨[], [], 0⟩ : PdbMeta).download (fun _ _ => .fail)).result = none
    ∧ ((⟨[], [], 0⟩ : PdbMeta).download (fun _ _ => .fail)).attemptsMade = 5
    ∧ ((⟨[], [], 0⟩ : PdbMeta).download
        (fun _ _ => .fail)).sleeps.take 4 = [1, 2, 4, 8]
    ∧ ((⟨[], [], 0⟩ : PdbMeta).download
        (fun _ _ => .fail)).sleeps = [1, 2, 4, 8, 16] :=
  C2_retry_schedule ⟨[], [], 0⟩ (fun _ _ => .fail) (fun _ => rfl)

/-- C5: the download client requests exactly the URL formed of the
symbol-server base, the name, a slash, the guid immediately followed by
the decimal age with no separator, a slash, and the name again. -/
theorem C5_download_url (p : PdbMeta) :
    downloadUrl p =
      asciiBytes "https://msdl.microsoft.com/download/symbols/"
        ++ p.name ++ asciiBytes "/" ++ p.guid
        ++ asciiBytes (Nat.repr p.age) ++ asciiBytes "/" ++ p.name
    ∧ downloadUrl
        ⟨asciiBytes "ntdll.pdb",
         asciiBytes "0403020106050807090A0B0C0D0E0F10", 3⟩ =
      asciiBytes
        "https://msdl.microsoft.com/download/symbols/ntdll.pdb/0403020106050807090A0B0C0D0E0F103/ntdll.pdb" :=
  ⟨rfl, by decide⟩

/-- C6: a response obtained without a transport error ends the loop at
once with success, whatever its status code (the result depends only on
the body); an unreadable body yields a successful empty payload. -/
theorem C6_success_regardless_of_status (p : PdbMeta)
    (http : List Nat → Nat → FetchOutcome) (k : Nat) (r : Response)
    (hk : k < 5)
    (hprev : ∀ n, n < k → http (downloadUrl p) n = .fail)
    (hok : http (downloadUrl p) k = .ok r) :
    (p.download http).result = some (r.body.getD [])
    ∧ (p.download http).attemptsMade = k + 1
    ∧ (r.body = none → (p.download http).result = some []) := by
  have hd : p.download http = downloadLoop (http (downloadUrl p)) 5 0 1 :=
    rfl
  have h := downloadLoop_ok (http (downloadUrl p)) r k 5 0 1 hk
    (fun n hn => by simpa using hprev n hn)
    (by simpa using hok)
  refine ⟨by rw [hd]; exact h.1, by rw [hd]; exact h.2, fun hbody => ?_⟩
  rw [hd, h.1, hbody]
  rfl

/-- Witness for C6: a 404 response with an unreadable body on the very
first attempt. -/
theorem C6_witness :
    (((⟨[], [], 0⟩ : PdbMeta).download
        (fun _ n => if n = 0 then .ok ⟨404, none⟩ else .fail)).result =
      some ((none : Option (List Nat)).getD [])
    ∧ ((⟨[], [], 0⟩ : PdbMeta).download
        (fun _ n => if n = 0 then .ok ⟨404, none⟩ else .fail)).attemptsMade =
      0 + 1
    ∧ ((none : Option (List Nat)) = none →
        ((⟨[], [], 0⟩ : PdbMeta).download
          (fun _ n => if n = 0 then .ok ⟨404, none⟩ else .fail)).result =
        some [])) :=
  C6_success_regardless_of_status ⟨[], [], 0⟩
    (fun _ n => if n = 0 then .ok ⟨404, none⟩ else .fail) 0 ⟨404, none⟩
    (by omega) (fun n hn => absurd hn (Nat.not_lt_zero n)) rfl

/-- Witness for C10 at two concrete distinct GUIDs. -/
theorem C10_witness :
    guidReorder (guidReorder (fun _ => 7)) = (fun _ => 7)
    ∧ encode_guid (fun _ => (7 : Nat)) ≠ encode_guid (fun _ => 9) :=
  C10_reorder_involution_injective (fun _ => 7) (fun _ => 9)
    (fun _ => show (7 : Nat) < 256 by decide)
    (fun _ => show (9 : Nat) < 256 by decide)
    (by intro hcontra; exact absurd (congrFun hcontra 0) (by decide))

end SymbolFetcher
